import Mathlib

/-!
Verification development for the DXT signing subsystem.

The repository's packaging tool ships a signing/verification module
(`src/node/sign.ts`: `signDxtFile`, `verifyDxtFile`, `unsignDxtFile`,
`extractSignatureBlock`, `createSignatureBlock`).  That module is not part of
the checked-in sources here (only its tests and callers are), so the
definitions below are modelled from the specification, as shallow executable
Lean functions over byte lists.  Cryptographic primitives are idealized
symbolically: the SHA-256 digest is taken to be an injective function of the
archive bytes (perfect collision resistance), RSA key possession is a key
identifier, and the DER encoding of the signed-data envelope is an injective
byte encoding whose bytes avoid the ASCII framing markers (the spec notes the
framing markers are a convenience whose collision with payload bytes is not
cryptographically hardened; we idealize that collision away).
-/

/-- Byte list of the 10-byte ASCII marker string used before a signature
block.  Modelled from the spec: the header marker `"DXT_SIG_V1"` of the
missing Signature Block Codec. -/
def SIGNATURE_HEADER : List Nat := [68, 88, 84, 95, 83, 73, 71, 95, 86, 49]

/-- Byte list of the 11-byte ASCII marker string that ends a signature
block.  Modelled from the spec: the footer marker `"DXT_SIG_END"` of the
missing Signature Block Codec. -/
def SIGNATURE_FOOTER : List Nat := [68, 88, 84, 95, 83, 73, 71, 95, 69, 78, 68]

/-- 4-byte little-endian encoding of a natural number (the signature length
field).  Modelled from the spec: the `length` field written with
`writeUInt32LE` in the missing codec. -/
def toLE32 (n : Nat) : List Nat :=
  [n % 256, n / 256 % 256, n / 65536 % 256, n / 16777216 % 256]

/-- Read a 4-byte little-endian unsigned integer from the front of a byte
list (missing bytes read as zero; the codec's later boundary check rejects
such truncated blocks).  Modelled from the spec: `readUInt32LE` on the
length field of the missing codec. -/
def readLE32 (l : List Nat) : Nat :=
  l.getD 0 0 + 256 * l.getD 1 0 + 65536 * l.getD 2 0 + 16777216 * l.getD 3 0

/-- Does the 10-byte header marker occur in `F` at offset `q`? -/
def headerAtB (F : List Nat) (q : Nat) : Bool :=
  decide (((F.drop q).take 10) = SIGNATURE_HEADER)

/-- Offset of the last occurrence of the header marker strictly below `n`,
scanning downward.  Modelled from the spec: the backward scan
(`lastIndexOf`) for the header marker in the missing codec's `locate`. -/
def lastHeaderIdxAux (F : List Nat) : Nat → Option Nat
  | 0 => none
  | n + 1 => if headerAtB F n then some n else lastHeaderIdxAux F n

/-- Modelled from the spec: `createSignatureBlock` of the missing codec —
header marker, 4-byte little-endian payload length, payload, footer
marker. -/
def createSignatureBlock (sig : List Nat) : List Nat :=
  SIGNATURE_HEADER ++ toLE32 sig.length ++ sig ++ SIGNATURE_FOOTER

/-- Modelled from the spec: `attach` of the missing codec — append a freshly
framed signature block to the archive bytes. -/
def attachSignature (archive sig : List Nat) : List Nat :=
  archive ++ createSignatureBlock sig

/-- Modelled from the spec: `extractSignatureBlock` (`locate`) of the missing
codec.  Scans from the end for the footer marker, finds the last header
marker, reads the length field after it and checks that the declared length
lands exactly on the boundaries; on any mismatch returns the whole file with
no signature.  Returns `(originalContent, signature?)` as the TypeScript
function does. -/
def extractSignatureBlock (F : List Nat) : List Nat × Option (List Nat) :=
  if F.length < 11 then (F, none)
  else if F.drop (F.length - 11) ≠ SIGNATURE_FOOTER then (F, none)
  else
    match lastHeaderIdxAux F F.length with
    | none => (F, none)
    | some h =>
      if h + 25 + readLE32 (F.drop (h + 10)) = F.length
      then (F.take h, some ((F.drop (h + 14)).take (readLE32 (F.drop (h + 10)))))
      else (F, none)

/-- Modelled from the spec: `unsign` / `strip` — remove a trailing signature
block if one is present, otherwise return the bytes unchanged. -/
def unsignDxtFile (F : List Nat) : List Nat :=
  (extractSignatureBlock F).1

theorem extract_short : extractSignatureBlock [1, 2, 3] = ([1, 2, 3], none) := by decide

theorem extract_small_roundtrip :
    extractSignatureBlock (attachSignature [1, 2] [103]) = ([1, 2], some [103]) := by
  decide

/-- Modelled from the spec: the distinguished-name part of a parsed
certificate (common name, organization, country), each as a sequence of
character codes, as the missing signer/verifier sees it via node-forge. -/
structure DName where
  commonName : List Nat
  organization : List Nat
  country : List Nat
deriving DecidableEq

/-- Modelled from the spec: an RSA public key, reduced to its modulus
bit-length and a symbolic key identifier (possession of the matching private
key is modelled as knowing the identifier). -/
structure PublicKey where
  bits : Nat
  keyId : Nat
deriving DecidableEq

/-- Modelled from the spec: a parsed certificate of the missing signing
module — subject, issuer, serial number, validity window, public key,
extension flags, plus the symbolic identifier of the key that signed it. -/
structure Certificate where
  subject : DName
  issuer : DName
  serialNumber : Nat
  notBefore : Nat
  notAfter : Nat
  publicKey : PublicKey
  isCA : Bool
  digitalSignature : Bool
  codeSigning : Bool
  signedByKeyId : Nat
deriving DecidableEq

/-- Modelled from the spec: a private key, symbolically its identifier. -/
structure PrivateKey where
  keyId : Nat
deriving DecidableEq

/-- Modelled from the spec: the detached PKCS#7 signed-data envelope of the
missing signing module — signer (leaf) certificate, intermediate
certificates, the authenticated message digest (SHA-256 idealized as the
archive bytes themselves), and the symbolic key that produced the signature
value. -/
structure SignedDataEnvelope where
  leaf : Certificate
  intermediates : List Certificate
  digest : List Nat
  sigKeyId : Nat
deriving DecidableEq

/-- Modelled from the spec: the key-strength rule of the missing Certificate
Policy — RSA modulus length must be at least 2048 bits. -/
def meetsMinimumStrength (c : Certificate) : Bool :=
  2048 ≤ c.publicKey.bits

/-- Is `c` issued by `r`?  Symbolic chain step: the issuer name matches and
`c` was signed with `r`'s key. -/
def issuedByB (c r : Certificate) : Bool :=
  decide (c.issuer = r.subject) && decide (c.signedByKeyId = r.publicKey.keyId)

/-- Modelled from the spec: the Trust Classifier's chain building — find a
path of certificates from the leaf through the supplied intermediates to a
certificate of the platform trust store, fuelled by the number of
intermediates.  Returns the certificates used beyond the leaf (ending in the
trusted root). -/
def findPathAux (store allInters : List Certificate) : Nat → Certificate → Option (List Certificate)
  | 0, c => (store.find? fun r => issuedByB c r).map fun r => [r]
  | fuel + 1, c =>
    match (store.find? fun r => issuedByB c r).map fun r => [r] with
    | some p => some p
    | none =>
      match allInters.find? fun i => issuedByB c i && (findPathAux store allInters fuel i).isSome with
      | some i => (findPathAux store allInters fuel i).map fun p => i :: p
      | none => none

/-- Chain building entry point: fuel is the number of intermediates. -/
def findChainPath (store inters : List Certificate) (c : Certificate) : Option (List Certificate) :=
  findPathAux store inters inters.length c

/- Serialization of the envelope.  Fields are flattened to a stream of
natural-number tokens, and the token stream is rendered as bytes, each token
as lowercase-hex digit characters terminated by `103` (ASCII `g`).  These
bytes never contain the byte `68` (ASCII `D`), so the rendered payload never
contains the framing markers — the idealization of a DER payload not
colliding with the markers. -/

/-- Hex digit character code for a value below 16. -/
def hexDigit (d : Nat) : Nat := if d < 10 then 48 + d else 87 + d

/-- Inverse of `hexDigit`. -/
def hexInv (b : Nat) : Nat := if b ≤ 57 then b - 48 else b - 87

/-- Little-endian base-16 digits of `n`, with explicit fuel for structural
recursion (fuel `n` always suffices). -/
def natHexAux : Nat → Nat → List Nat
  | 0, _ => []
  | _ + 1, 0 => []
  | fuel + 1, n + 1 => (n + 1) % 16 :: natHexAux fuel ((n + 1) / 16)

/-- Little-endian base-16 digits of `n` (empty for 0). -/
def natHexDigits (n : Nat) : List Nat := natHexAux n n

/-- Value of a little-endian base-16 digit list. -/
def hexValLE : List Nat → Nat
  | [] => 0
  | d :: r => d + 16 * hexValLE r

/-- Render one token as hex digit characters plus the `103` terminator. -/
def encTok (n : Nat) : List Nat := (natHexDigits n).map hexDigit ++ [103]

/-- Render a token stream as bytes. -/
def byteify (l : List Nat) : List Nat := (l.map encTok).flatten

/-- Is `b` a hex digit character code? -/
def isHexByte (b : Nat) : Bool := (48 ≤ b && b ≤ 57) || (97 ≤ b && b ≤ 102)

/-- Parse the byte rendering back to a token stream; `acc` holds the digit
characters of the current token.  Rejects bytes outside the hex alphabet and
a dangling unterminated token. -/
def unbyteifyAux : List Nat → List Nat → Option (List Nat)
  | [], [] => some []
  | [], _ :: _ => none
  | b :: rest, acc =>
    if b = 103 then (unbyteifyAux rest []).map fun l => hexValLE (acc.map hexInv) :: l
    else if isHexByte b then unbyteifyAux rest (acc ++ [b]) else none

/-- Parse a byte rendering back to a token stream. -/
def unbyteify (bs : List Nat) : Option (List Nat) := unbyteifyAux bs []

/-- Length-prefixed token rendering of a list of tokens. -/
def encL (l : List Nat) : List Nat := l.length :: l

/-- Token rendering of a certificate: its six name components
length-prefixed, then the nine scalar fields. -/
def certTokens (c : Certificate) : List Nat :=
  encL c.subject.commonName ++ (encL c.subject.organization ++ (encL c.subject.country ++
    (encL c.issuer.commonName ++ (encL c.issuer.organization ++ (encL c.issuer.country ++
      [c.serialNumber, c.notBefore, c.notAfter, c.publicKey.bits, c.publicKey.keyId,
        cond c.isCA 1 0, cond c.digitalSignature 1 0, cond c.codeSigning 1 0,
        c.signedByKeyId])))))

/-- Token rendering of the whole envelope. -/
def envTokens (e : SignedDataEnvelope) : List Nat :=
  e.sigKeyId :: (certTokens e.leaf ++ (encL e.digest ++
    (e.intermediates.length :: (e.intermediates.map certTokens).flatten)))

/-- Read a length-prefixed list from a token stream. -/
def readList : List Nat → Option (List Nat × List Nat)
  | [] => none
  | n :: t => if n ≤ t.length then some (t.take n, t.drop n) else none

/-- Parse a distinguished name (three length-prefixed components). -/
def parseDName (t : List Nat) : Option (DName × List Nat) :=
  (readList t).bind fun p =>
    (readList p.2).bind fun q =>
      (readList q.2).map fun r => (⟨p.1, q.1, r.1⟩, r.2)

/-- Parse one certificate from a token stream. -/
def parseCert (t : List Nat) : Option (Certificate × List Nat) :=
  (parseDName t).bind fun s =>
    (parseDName s.2).bind fun i =>
      match i.2 with
      | ser :: nb :: na :: bits :: kid :: ca :: ds :: cs :: sby :: rest =>
        some (⟨s.1, i.1, ser, nb, na, ⟨bits, kid⟩, ca == 1, ds == 1, cs == 1, sby⟩, rest)
      | _ => none

/-- Parse `k` certificates from a token stream. -/
def parseCerts : Nat → List Nat → Option (List Certificate × List Nat)
  | 0, t => some ([], t)
  | k + 1, t =>
    (parseCert t).bind fun c =>
      (parseCerts k c.2).map fun cs => (c.1 :: cs.1, cs.2)

/-- Parse an envelope from a token stream, requiring that the stream is
consumed exactly. -/
def parseEnvelope (t : List Nat) : Option SignedDataEnvelope :=
  match t with
  | [] => none
  | sk :: t0 =>
    (parseCert t0).bind fun lf =>
      (readList lf.2).bind fun dg =>
        match dg.2 with
        | [] => none
        | k :: t3 =>
          (parseCerts k t3).bind fun ins =>
            if ins.2.isEmpty then some ⟨lf.1, ins.1, dg.1, sk⟩ else none

/-- Modelled from the spec: DER-encode the signed-data envelope (idealized
injective, marker-free encoding; see the module comment). -/
def encodeEnvelope (e : SignedDataEnvelope) : List Nat := byteify (envTokens e)

/-- Modelled from the spec: parse a signature payload as a signed-data
envelope; `none` models a DER parse failure. -/
def decodeEnvelope (bs : List Nat) : Option SignedDataEnvelope :=
  (unbyteify bs).bind parseEnvelope

/-- Modelled from the spec: the three-way trust verdict of the missing
verifier. -/
inductive SignatureStatus
  | signed
  | selfSigned
  | unsigned
deriving DecidableEq

/-- The user-facing status string of a verdict, as in the repository's
`DxtSignatureInfoSchema` enum. -/
def SignatureStatus.display : SignatureStatus → String
  | .signed => "signed"
  | .selfSigned => "self-signed"
  | .unsigned => "unsigned"

/-- Modelled from the spec: the verification result of the missing
`verifyDxtFile` — a verdict plus optional display fields, matching the
repository's `DxtSignatureInfoSchema`. -/
structure DxtSignatureInfo where
  status : SignatureStatus
  publisher : Option String
  issuer : Option String
  valid_from : Option String
  valid_to : Option String
  fingerprint : Option String
deriving DecidableEq

/-- Render certificate character codes for display. -/
def codesToString (l : List Nat) : String := String.mk (l.map Char.ofNat)

/-- Modelled from the spec: the display fingerprint of the leaf certificate
(a content-derived hash used only for display, idealized here). -/
def fingerprintOf (c : Certificate) : String :=
  toString c.serialNumber ++ "-" ++ toString c.publicKey.keyId

/-- The `unsigned` verdict: no other field is populated. -/
def unsignedResult : DxtSignatureInfo :=
  ⟨.unsigned, none, none, none, none, none⟩

/-- A `signed` verdict carrying the leaf certificate's display fields. -/
def signedResult (c : Certificate) : DxtSignatureInfo :=
  ⟨.signed, some (codesToString c.subject.commonName),
    some (codesToString c.issuer.commonName), some (toString c.notBefore),
    some (toString c.notAfter), some (fingerprintOf c)⟩

/-- A `self-signed` verdict carrying the leaf certificate's display
fields. -/
def selfSignedResult (c : Certificate) : DxtSignatureInfo :=
  ⟨.selfSigned, some (codesToString c.subject.commonName),
    some (codesToString c.issuer.commonName), some (toString c.notBefore),
    some (toString c.notAfter), some (fingerprintOf c)⟩

/-- Modelled from the spec: the error taxonomy of the missing
`signDxtFile`. -/
inductive SignError
  | policyError (msg : String)
  | keyMismatchError
deriving DecidableEq

/-- The policy-violation message for an RSA key of `bits` bits, naming the
offending size and the required minimum. -/
def weakKeyMessage (bits : Nat) : String :=
  "RSA key size " ++ toString bits ++ " is too small for signing. " ++
    "Minimum required is 2048 bits."

/-- Modelled from the spec: the missing `signDxtFile` on in-memory bytes —
validate key strength first (fail fast), check that the private key matches
the certificate, defensively strip any existing signature block, build the
detached signed-data envelope over the archive bytes, DER-encode it and
attach the framed block.  Returns the new file bytes, or the sign-time
error; an error means the target file is left unmodified. -/
def signDxtFile (fileBytes : List Nat) (cert : Certificate) (key : PrivateKey)
    (inters : List Certificate) : Except SignError (List Nat) :=
  if cert.publicKey.bits < 2048 then
    .error (.policyError (weakKeyMessage cert.publicKey.bits))
  else if key.keyId ≠ cert.publicKey.keyId then
    .error .keyMismatchError
  else
    let archive := unsignDxtFile fileBytes
    let env : SignedDataEnvelope := ⟨cert, inters, archive, key.keyId⟩
    .ok (attachSignature archive (encodeEnvelope env))

/-- The file contents after a signing attempt: the new bytes on success,
the old bytes when signing fails (the error is thrown before any write). -/
def fileAfterSign (fileBytes : List Nat) (cert : Certificate) (key : PrivateKey)
    (inters : List Certificate) : List Nat :=
  match signDxtFile fileBytes cert key inters with
  | .ok g => g
  | .error _ => fileBytes

/-- Modelled from the spec: the missing `verifyDxtFile` on in-memory bytes,
with the platform trust store injected.  Locate the signature block (absent
→ `unsigned`), parse the envelope (malformed → `unsigned`), check the
authenticated digest against the archive bytes and the signature value
against the leaf key (mismatch → `unsigned`), then build a trust chain:
if one is found and every certificate used meets the key-strength policy the
verdict is `signed`; with no chain, a policy-compliant strictly self-signed
leaf yields `self-signed`; everything else degrades to `unsigned`.  Total —
never throws. -/
def verifyCore (trustedRoots : List Certificate) (archive payload : List Nat) :
    DxtSignatureInfo :=
  match decodeEnvelope payload with
  | none => unsignedResult
  | some env =>
    if env.digest ≠ archive then unsignedResult
    else if env.sigKeyId ≠ env.leaf.publicKey.keyId then unsignedResult
    else
      match findChainPath trustedRoots env.intermediates env.leaf with
      | some path =>
        if (env.leaf :: path).all meetsMinimumStrength then signedResult env.leaf
        else unsignedResult
      | none =>
        if meetsMinimumStrength env.leaf then
          if env.leaf.issuer = env.leaf.subject ∧
              env.leaf.signedByKeyId = env.leaf.publicKey.keyId then
            selfSignedResult env.leaf
          else unsignedResult
        else unsignedResult

def verifyDxtFile (trustedRoots : List Certificate) (file : List Nat) : DxtSignatureInfo :=
  match extractSignatureBlock file with
  | (_, none) => unsignedResult
  | (archive, some payload) => verifyCore trustedRoots archive payload

/-! Codec lemmas. -/

theorem headerAtB_length {F : List Nat} {q : Nat} (h : headerAtB F q = true) :
    q + 10 ≤ F.length := by
  have he : ((F.drop q).take 10) = SIGNATURE_HEADER := by
    simpa [headerAtB] using h
  have hl := congrArg List.length he
  simp [SIGNATURE_HEADER] at hl
  omega

theorem lastHeaderIdxAux_lt {F : List Nat} {n h : Nat}
    (hx : lastHeaderIdxAux F n = some h) : h < n := by
  induction n with
  | zero => simp [lastHeaderIdxAux] at hx
  | succ n ih =>
    rw [lastHeaderIdxAux] at hx
    by_cases hb : headerAtB F n = true
    · rw [if_pos hb] at hx
      simp only [Option.some.injEq] at hx
      omega
    · rw [if_neg hb] at hx
      exact Nat.lt_succ_of_lt (ih hx)

theorem lastHeaderIdxAux_found {F : List Nat} {n h : Nat} (hn : h < n)
    (hh : headerAtB F h = true) (habove : ∀ q, h < q → headerAtB F q = false) :
    lastHeaderIdxAux F n = some h := by
  induction n with
  | zero => omega
  | succ n ih =>
    rw [lastHeaderIdxAux]
    rcases Nat.lt_succ_iff_lt_or_eq.1 hn with hlt | heq
    · rw [if_neg (by simp [habove n hlt])]
      exact ih hlt
    · subst heq
      rw [if_pos hh]

theorem lastHeaderIdxAux_congr {F G : List Nat} {n h : Nat}
    (hx : lastHeaderIdxAux F n = some h)
    (hsame : ∀ q, h ≤ q → headerAtB G q = headerAtB F q) :
    lastHeaderIdxAux G n = some h := by
  induction n with
  | zero => simp [lastHeaderIdxAux] at hx
  | succ n ih =>
    rw [lastHeaderIdxAux] at hx ⊢
    by_cases hb : headerAtB F n = true
    · rw [if_pos hb] at hx
      cases hx
      rw [if_pos ((hsame h le_rfl).trans hb)]
    · rw [if_neg hb] at hx
      have hn : h < n := lastHeaderIdxAux_lt hx
      rw [if_neg (by rw [hsame n (Nat.le_of_lt hn)]; exact hb)]
      exact ih hx

theorem length_createSignatureBlock (s : List Nat) :
    (createSignatureBlock s).length = 25 + s.length := by
  simp [createSignatureBlock, SIGNATURE_HEADER, SIGNATURE_FOOTER, toLE32]
  omega

theorem readLE32_toLE32_mod (n : Nat) (r : List Nat) :
    readLE32 (toLE32 n ++ r) = n % 4294967296 := by
  simp [toLE32, readLE32, List.getD]
  omega

theorem readLE32_toLE32 {n : Nat} (hn : n < 4294967296) (r : List Nat) :
    readLE32 (toLE32 n ++ r) = n := by
  rw [readLE32_toLE32_mod]
  omega

theorem extract_attach {A P : List Nat}
    (hclean : ∀ j, 0 < j → headerAtB (createSignatureBlock P) j = false)
    (hlen : P.length < 4294967296) :
    extractSignatureBlock (attachSignature A P) = (A, some P) := by
  have hBlen : (createSignatureBlock P).length = 25 + P.length :=
    length_createSignatureBlock P
  have hFlen : (attachSignature A P).length = A.length + (25 + P.length) := by
    simp [attachSignature, hBlen]
  have hdropA : ∀ j, (attachSignature A P).drop (A.length + j) = (createSignatureBlock P).drop j :=
    fun j => List.drop_append j
  have hassoc : createSignatureBlock P
      = SIGNATURE_HEADER ++ (toLE32 P.length ++ (P ++ SIGNATURE_FOOTER)) := by
    simp [createSignatureBlock, List.append_assoc]
  have hB10 : (createSignatureBlock P).drop 10 = toLE32 P.length ++ (P ++ SIGNATURE_FOOTER) := by
    rw [hassoc]
    have h10 : (10 : Nat) = SIGNATURE_HEADER.length := by decide
    rw [h10, List.drop_left]
  have hhead : headerAtB (attachSignature A P) A.length = true := by
    have hd : (attachSignature A P).drop A.length = createSignatureBlock P := by
      simpa using hdropA 0
    unfold headerAtB
    rw [hd, hassoc]
    have h10 : (10 : Nat) = SIGNATURE_HEADER.length := by decide
    rw [h10, List.take_left]
    simp
  have habove : ∀ q, A.length < q → headerAtB (attachSignature A P) q = false := by
    intro q hq
    obtain ⟨j, rfl⟩ : ∃ j, q = A.length + j := ⟨q - A.length, by omega⟩
    have hj : 0 < j := by omega
    have := hclean j hj
    unfold headerAtB at this ⊢
    rw [hdropA j]
    exact this
  have haux : lastHeaderIdxAux (attachSignature A P) (attachSignature A P).length
      = some A.length :=
    lastHeaderIdxAux_found (by omega) hhead habove
  have hassoc2 : createSignatureBlock P
      = (SIGNATURE_HEADER ++ (toLE32 P.length ++ P)) ++ SIGNATURE_FOOTER := by
    simp [createSignatureBlock, List.append_assoc]
  have hBdropFoot : (createSignatureBlock P).drop (14 + P.length) = SIGNATURE_FOOTER := by
    have h14 : 14 + P.length = (SIGNATURE_HEADER ++ (toLE32 P.length ++ P)).length := by
      simp [SIGNATURE_HEADER, toLE32]
      omega
    rw [hassoc2, h14, List.drop_left]
  have hfoot : (attachSignature A P).drop ((attachSignature A P).length - 11)
      = SIGNATURE_FOOTER := by
    have he : (attachSignature A P).length - 11 = A.length + (14 + P.length) := by omega
    rw [he, hdropA (14 + P.length), hBdropFoot]
  have hread : readLE32 ((attachSignature A P).drop (A.length + 10)) = P.length := by
    rw [hdropA 10, hB10]
    exact readLE32_toLE32 hlen (P ++ SIGNATURE_FOOTER)
  have htake : (attachSignature A P).take A.length = A := by
    simp [attachSignature]
  have hB14 : (createSignatureBlock P).drop 14 = P ++ SIGNATURE_FOOTER := by
    have h14 : (14 : Nat) = (SIGNATURE_HEADER ++ toLE32 P.length).length := by
      simp [SIGNATURE_HEADER, toLE32]
    have hassoc3 : createSignatureBlock P
        = (SIGNATURE_HEADER ++ toLE32 P.length) ++ (P ++ SIGNATURE_FOOTER) := by
      simp [createSignatureBlock, List.append_assoc]
    rw [hassoc3, h14, List.drop_left]
  have hpay : ((attachSignature A P).drop (A.length + 14)).take P.length = P := by
    rw [hdropA 14, hB14, List.take_left]
  rw [extractSignatureBlock]
  rw [if_neg (by omega)]
  rw [if_neg (by simp [hfoot])]
  rw [haux]
  dsimp only
  rw [hread]
  rw [if_pos (by omega)]
  rw [htake, hpay]


theorem extract_shape (F : List Nat) :
    extractSignatureBlock F = (F, none) ∨ ∃ a p, extractSignatureBlock F = (a, some p) := by
  rw [extractSignatureBlock]
  split
  · exact Or.inl rfl
  · split
    · exact Or.inl rfl
    · split
      · exact Or.inl rfl
      · split
        · exact Or.inr ⟨_, _, rfl⟩
        · exact Or.inl rfl

theorem extract_none_fst {F : List Nat} (h : (extractSignatureBlock F).2 = none) :
    (extractSignatureBlock F).1 = F := by
  rcases extract_shape F with hs | ⟨a, p, hs⟩
  · rw [hs]
  · rw [hs] at h
    simp at h

theorem extract_some_inv {F a p : List Nat}
    (hx : extractSignatureBlock F = (a, some p)) :
    ∃ h, lastHeaderIdxAux F F.length = some h ∧ a = F.take h ∧
      h + 25 + readLE32 (F.drop (h + 10)) = F.length ∧
      p = (F.drop (h + 14)).take (readLE32 (F.drop (h + 10))) ∧
      11 ≤ F.length ∧ F.drop (F.length - 11) = SIGNATURE_FOOTER := by
  rw [extractSignatureBlock] at hx
  split at hx
  · simp at hx
  · next h1 =>
    split at hx
    · simp at hx
    · next h2 =>
      split at hx
      · simp at hx
      · next h haux =>
        split at hx
        · next hbound =>
          have h5 : a = F.take h ∧
              some p = some ((F.drop (h + 14)).take (readLE32 (F.drop (h + 10)))) := by
            constructor
            · exact (congrArg Prod.fst hx).symm
            · exact (congrArg Prod.snd hx).symm
          refine ⟨h, haux, h5.1, hbound, by simpa using h5.2, by omega,
            not_not.1 (by simpa using h2)⟩
        · simp at hx

theorem extract_set {F a p : List Nat} {i b : Nat}
    (hx : extractSignatureBlock F = (a, some p)) (hi : i < a.length) :
    extractSignatureBlock (F.set i b) = (a.set i b, some p) := by
  obtain ⟨h, haux, ha, hbound, hp, hlen11, hfoot⟩ := extract_some_inv hx
  have hhlt : h < F.length := lastHeaderIdxAux_lt haux
  have halen : a.length = h := by
    rw [ha, List.length_take]
    omega
  have hih : i < h := halen ▸ hi
  have hGlen : (F.set i b).length = F.length := List.length_set F i b
  have hdropset : ∀ n, i < n → (F.set i b).drop n = F.drop n := by
    intro n hn
    exact List.drop_set_of_lt _ _ hn
  have hsame : ∀ q, h ≤ q → headerAtB (F.set i b) q = headerAtB F q := by
    intro q hq
    unfold headerAtB
    rw [hdropset q (by omega)]
  have hauxG : lastHeaderIdxAux (F.set i b) (F.set i b).length = some h := by
    rw [hGlen]
    exact lastHeaderIdxAux_congr haux hsame
  have hread : (F.set i b).drop (h + 10) = F.drop (h + 10) := hdropset _ (by omega)
  have htake : (F.set i b).take h = a.set i b := by
    rw [List.set_take, ← ha]
  have hdrop14 : (F.set i b).drop (h + 14) = F.drop (h + 14) := hdropset _ (by omega)
  rw [extractSignatureBlock]
  rw [if_neg (by omega)]
  rw [if_neg (by
    rw [hGlen, hdropset (F.length - 11) (by omega), hfoot]
    simp)]
  rw [hauxG]
  dsimp only
  rw [hread]
  rw [if_pos (by rw [hGlen]; exact hbound)]
  rw [htake, hdrop14, ← hp]

theorem block_byte_cases {P : List Nat} {k v : Nat}
    (h : (createSignatureBlock P)[k]? = some v) :
    (k < 10 ∧ SIGNATURE_HEADER[k]? = some v)
    ∨ (10 ≤ k ∧ k < 14)
    ∨ (14 ≤ k ∧ k < 14 + P.length ∧ v ∈ P)
    ∨ (14 + P.length ≤ k ∧ k < 25 + P.length ∧
        SIGNATURE_FOOTER[k - (14 + P.length)]? = some v) := by
  have hassoc : createSignatureBlock P
      = SIGNATURE_HEADER ++ (toLE32 P.length ++ (P ++ SIGNATURE_FOOTER)) := by
    simp [createSignatureBlock, List.append_assoc]
  rw [hassoc] at h
  by_cases h10 : k < 10
  · left
    refine ⟨h10, ?_⟩
    rw [List.getElem?_append_left (by simp [SIGNATURE_HEADER]; omega)] at h
    exact h
  · rw [List.getElem?_append_right (by simp [SIGNATURE_HEADER]; omega)] at h
    have hidx1 : k - SIGNATURE_HEADER.length = k - 10 := by simp [SIGNATURE_HEADER]
    rw [hidx1] at h
    by_cases h14 : k < 14
    · right; left
      omega
    · rw [List.getElem?_append_right (by simp [toLE32]; omega)] at h
      have hidx2 : k - 10 - (toLE32 P.length).length = k - 14 := by
        simp [toLE32]
        omega
      rw [hidx2] at h
      by_cases hP : k < 14 + P.length
      · right; right; left
        rw [List.getElem?_append_left (by omega)] at h
        exact ⟨by omega, hP, List.getElem?_mem h⟩
      · right; right; right
        rw [List.getElem?_append_right (by omega)] at h
        have hidx3 : k - 14 - P.length = k - (14 + P.length) := by omega
        rw [hidx3] at h
        have hlt : k - (14 + P.length) < SIGNATURE_FOOTER.length := by
          by_contra hge
          rw [List.getElem?_eq_none (by omega)] at h
          exact Option.noConfusion h
        have hlt' : k < 25 + P.length := by
          simp [SIGNATURE_FOOTER] at hlt
          omega
        exact ⟨by omega, hlt', h⟩

theorem block_clean_hex {P : List Nat}
    (hP : ∀ b ∈ P, isHexByte b = true ∨ b = 103) :
    ∀ j, 0 < j → headerAtB (createSignatureBlock P) j = false := by
  intro j hj
  rw [headerAtB, decide_eq_false_iff_not]
  intro heq
  have hpt : ∀ t, t < 10 → (createSignatureBlock P)[j + t]? = SIGNATURE_HEADER[t]? := by
    intro t ht
    rw [← List.getElem?_drop]
    rw [← List.getElem?_take_of_lt (l := (createSignatureBlock P).drop j) ht]
    rw [heq]
  have b0 : (createSignatureBlock P)[j]? = some 68 := by
    have := hpt 0 (by omega)
    simpa [SIGNATURE_HEADER] using this
  have b1 : (createSignatureBlock P)[j + 1]? = some 88 := by
    have := hpt 1 (by omega)
    rw [this]
    decide
  have b4 : (createSignatureBlock P)[j + 4]? = some 83 := by
    have := hpt 4 (by omega)
    rw [this]
    decide
  have b8 : (createSignatureBlock P)[j + 8]? = some 86 := by
    have := hpt 8 (by omega)
    rw [this]
    decide
  rcases block_byte_cases b0 with ⟨hk, hv⟩ | ⟨hk1, hk2⟩ | ⟨hk1, hk2, hv⟩ | ⟨hk1, hk2, hv⟩
  · -- inside the header marker: byte 68 occurs only at offset 0
    interval_cases j <;> simp [SIGNATURE_HEADER] at hv
  · -- inside the length field: the byte at j + 4 would have to be 83
    rcases block_byte_cases b4 with ⟨hk, hv⟩ | ⟨hl1, hl2⟩ | ⟨hl1, hl2, hv⟩ | ⟨hl1, hl2, hv⟩
    · omega
    · omega
    · rcases hP 83 hv with hhex | h103
      · simp [isHexByte] at hhex
      · omega
    · have hidx : j + 4 - (14 + P.length) ≤ 3 := by omega
      have hidx0 : j + 4 - (14 + P.length) = 0 ∨ j + 4 - (14 + P.length) = 1 ∨
          j + 4 - (14 + P.length) = 2 ∨ j + 4 - (14 + P.length) = 3 := by omega
      rcases hidx0 with he | he | he | he <;> rw [he] at hv <;> simp [SIGNATURE_FOOTER] at hv
  · -- inside the payload: 68 is not a payload byte
    rcases hP 68 hv with hhex | h103
    · simp [isHexByte] at hhex
    · omega
  · -- inside the footer marker: 68 occurs at offsets 0 and 10 only
    have hidx : j - (14 + P.length) < 11 := by omega
    have h010 : j - (14 + P.length) = 0 ∨ j - (14 + P.length) = 10 := by
      by_contra hno
      push_neg at hno
      have : SIGNATURE_FOOTER[j - (14 + P.length)]? ≠ some 68 := by
        have h1 : 1 ≤ j - (14 + P.length) := by omega
        have h9 : j - (14 + P.length) ≤ 9 := by omega
        set t := j - (14 + P.length) with ht
        interval_cases t <;> decide
      exact this hv
    rcases h010 with he | he
    · -- footer start: the byte 8 further must be 86, but the footer has 69 there
      have hj8 : j + 8 = (14 + P.length) + 8 := by omega
      rcases block_byte_cases b8 with ⟨hk, hv8⟩ | ⟨hl1, hl2⟩ | ⟨hl1, hl2, hv8⟩ | ⟨hl1, hl2, hv8⟩
      · omega
      · omega
      · omega
      · have : j + 8 - (14 + P.length) = 8 := by omega
        rw [this] at hv8
        simp [SIGNATURE_FOOTER] at hv8
    · -- footer end: there is no byte after it
      have : (createSignatureBlock P)[j + 1]? = none := by
        apply List.getElem?_eq_none
        rw [length_createSignatureBlock]
        omega
      rw [this] at b1
      exact Option.noConfusion b1

/-! Serialization roundtrip lemmas. -/

theorem natHexAux_lt : ∀ fuel n d, d ∈ natHexAux fuel n → d < 16 := by
  intro fuel
  induction fuel with
  | zero => intro n d hd; simp [natHexAux] at hd
  | succ f ih =>
    intro n d hd
    match n with
    | 0 => simp [natHexAux] at hd
    | n + 1 =>
      rw [natHexAux] at hd
      rcases List.mem_cons.1 hd with he | hm
      · subst he
        exact Nat.mod_lt _ (by omega)
      · exact ih _ _ hm

theorem hexValLE_natHexAux : ∀ fuel n, n ≤ fuel → hexValLE (natHexAux fuel n) = n := by
  intro fuel
  induction fuel with
  | zero =>
    intro n hn
    interval_cases n
    simp [natHexAux, hexValLE]
  | succ f ih =>
    intro n hn
    match n with
    | 0 => simp [natHexAux, hexValLE]
    | n + 1 =>
      rw [natHexAux, hexValLE]
      have hdiv : (n + 1) / 16 ≤ f := by omega
      rw [ih _ hdiv]
      omega

theorem hexDigit_facts {d : Nat} (hd : d < 16) :
    isHexByte (hexDigit d) = true ∧ hexDigit d ≠ 103 ∧ hexInv (hexDigit d) = d := by
  interval_cases d <;> exact ⟨by decide, by decide, by decide⟩

theorem unbyteifyAux_chunk : ∀ g bs acc, (∀ b ∈ g, isHexByte b = true ∧ b ≠ 103) →
    unbyteifyAux (g ++ bs) acc = unbyteifyAux bs (acc ++ g) := by
  intro g
  induction g with
  | nil => intro bs acc _; simp
  | cons b g' ih =>
    intro bs acc hg
    have hb := hg b (List.mem_cons_self b g')
    rw [List.cons_append, unbyteifyAux]
    rw [if_neg hb.2, if_pos hb.1]
    rw [ih bs (acc ++ [b]) fun x hx => hg x (List.mem_cons_of_mem b hx)]
    rw [List.append_assoc]
    rfl

theorem natHexDigits_lt (n : Nat) : ∀ d ∈ natHexDigits n, d < 16 := by
  intro d hd
  exact natHexAux_lt n n d hd

theorem encTok_hexVal (n : Nat) :
    hexValLE (List.map (fun d => hexInv (hexDigit d)) (natHexDigits n)) = n := by
  have hmap : ∀ g : List Nat, (∀ d ∈ g, d < 16) →
      List.map (fun d => hexInv (hexDigit d)) g = g := by
    intro g
    induction g with
    | nil => intro _; rfl
    | cons d g' ih =>
      intro hg
      simp only [List.map_cons, List.cons.injEq]
      exact ⟨(hexDigit_facts (hg d (List.mem_cons_self d g'))).2.2,
        ih fun x hx => hg x (List.mem_cons_of_mem d hx)⟩
  rw [hmap _ (natHexDigits_lt n)]
  exact hexValLE_natHexAux n n le_rfl

theorem unbyteify_byteify : ∀ l : List Nat, unbyteifyAux (byteify l) [] = some l := by
  intro l
  induction l with
  | nil => rfl
  | cons n l' ih =>
    have hby : byteify (n :: l')
        = ((natHexDigits n).map hexDigit) ++ (103 :: byteify l') := by
      simp [byteify, encTok, List.append_assoc]
    rw [hby]
    rw [unbyteifyAux_chunk _ _ [] fun b hb => by
      obtain ⟨d, hd, rfl⟩ := List.mem_map.1 hb
      have := hexDigit_facts (natHexDigits_lt n d hd)
      exact ⟨this.1, this.2.1⟩]
    rw [List.nil_append, unbyteifyAux]
    rw [if_pos rfl, ih]
    simp [Function.comp_def, encTok_hexVal]

theorem byteify_hexlike {l : List Nat} :
    ∀ b ∈ byteify l, isHexByte b = true ∨ b = 103 := by
  intro b hb
  simp only [byteify, List.mem_flatten, List.mem_map] at hb
  obtain ⟨chunk, ⟨n, _, rfl⟩, hbc⟩ := hb
  simp only [encTok, List.mem_append, List.mem_map, List.mem_singleton] at hbc
  rcases hbc with ⟨d, hd, rfl⟩ | rfl
  · exact Or.inl (hexDigit_facts (natHexDigits_lt n d hd)).1
  · exact Or.inr rfl

theorem readList_encL (l r : List Nat) : readList (encL l ++ r) = some (l, r) := by
  have h : encL l ++ r = l.length :: (l ++ r) := by simp [encL]
  rw [h, readList]
  rw [if_pos (by simp)]
  simp

theorem parseCert_tokens (c : Certificate) (r : List Nat) :
    parseCert (certTokens c ++ r) = some (c, r) := by
  obtain ⟨⟨scn, sor, sco⟩, ⟨icn, ior, ico⟩, ser, nb, na, ⟨bits, kid⟩, ca, ds, cs, sby⟩ := c
  simp only [certTokens, List.append_assoc]
  simp [parseDName, parseCert, readList_encL]
  cases ca <;> cases ds <;> cases cs <;> simp

theorem parseCerts_tokens (l : List Certificate) (r : List Nat) :
    parseCerts l.length ((l.map certTokens).flatten ++ r) = some (l, r) := by
  induction l with
  | nil => rfl
  | cons c l' ih =>
    simp only [List.length_cons, List.map_cons, List.flatten_cons, List.append_assoc]
    rw [parseCerts, parseCert_tokens]
    simp only [Option.some_bind]
    rw [ih]
    rfl

theorem parseEnvelope_tokens (e : SignedDataEnvelope) :
    parseEnvelope (envTokens e) = some e := by
  obtain ⟨leaf, inters, digest, sk⟩ := e
  simp only [envTokens, parseEnvelope]
  rw [parseCert_tokens]
  simp only [Option.some_bind]
  rw [readList_encL]
  simp only [Option.some_bind]
  have h : (inters.map certTokens).flatten = (inters.map certTokens).flatten ++ [] := by
    simp
  rw [h, parseCerts_tokens]
  rfl

theorem decode_encode (e : SignedDataEnvelope) :
    decodeEnvelope (encodeEnvelope e) = some e := by
  rw [decodeEnvelope, encodeEnvelope, unbyteify, unbyteify_byteify]
  simp only [Option.some_bind]
  exact parseEnvelope_tokens e

/-! Verification-level helper lemmas. -/

theorem extract_attach_big {A P : List Nat}
    (hclean : ∀ j, 0 < j → headerAtB (createSignatureBlock P) j = false)
    (hlen : ¬ P.length < 4294967296) :
    extractSignatureBlock (attachSignature A P) = (attachSignature A P, none) := by
  have hBlen : (createSignatureBlock P).length = 25 + P.length :=
    length_createSignatureBlock P
  have hFlen : (attachSignature A P).length = A.length + (25 + P.length) := by
    simp [attachSignature, hBlen]
  have hdropA : ∀ j, (attachSignature A P).drop (A.length + j) = (createSignatureBlock P).drop j :=
    fun j => List.drop_append j
  have hassoc : createSignatureBlock P
      = SIGNATURE_HEADER ++ (toLE32 P.length ++ (P ++ SIGNATURE_FOOTER)) := by
    simp [createSignatureBlock, List.append_assoc]
  have hB10 : (createSignatureBlock P).drop 10 = toLE32 P.length ++ (P ++ SIGNATURE_FOOTER) := by
    rw [hassoc]
    have h10 : (10 : Nat) = SIGNATURE_HEADER.length := by decide
    rw [h10, List.drop_left]
  have hhead : headerAtB (attachSignature A P) A.length = true := by
    have hd : (attachSignature A P).drop A.length = createSignatureBlock P := by
      simpa using hdropA 0
    unfold headerAtB
    rw [hd, hassoc]
    have h10 : (10 : Nat) = SIGNATURE_HEADER.length := by decide
    rw [h10, List.take_left]
    simp
  have habove : ∀ q, A.length < q → headerAtB (attachSignature A P) q = false := by
    intro q hq
    obtain ⟨j, rfl⟩ : ∃ j, q = A.length + j := ⟨q - A.length, by omega⟩
    have hj : 0 < j := by omega
    have hc := hclean j hj
    unfold headerAtB at hc ⊢
    rw [hdropA j]
    exact hc
  have haux : lastHeaderIdxAux (attachSignature A P) (attachSignature A P).length
      = some A.length :=
    lastHeaderIdxAux_found (by omega) hhead habove
  have hassoc2 : createSignatureBlock P
      = (SIGNATURE_HEADER ++ (toLE32 P.length ++ P)) ++ SIGNATURE_FOOTER := by
    simp [createSignatureBlock, List.append_assoc]
  have hBdropFoot : (createSignatureBlock P).drop (14 + P.length) = SIGNATURE_FOOTER := by
    have h14 : 14 + P.length = (SIGNATURE_HEADER ++ (toLE32 P.length ++ P)).length := by
      simp [SIGNATURE_HEADER, toLE32]
      omega
    rw [hassoc2, h14, List.drop_left]
  have hfoot : (attachSignature A P).drop ((attachSignature A P).length - 11)
      = SIGNATURE_FOOTER := by
    have he : (attachSignature A P).length - 11 = A.length + (14 + P.length) := by omega
    rw [he, hdropA (14 + P.length), hBdropFoot]
  have hread : readLE32 ((attachSignature A P).drop (A.length + 10))
      = P.length % 4294967296 := by
    rw [hdropA 10, hB10]
    exact readLE32_toLE32_mod P.length (P ++ SIGNATURE_FOOTER)
  rw [extractSignatureBlock]
  rw [if_neg (by omega)]
  rw [if_neg (by simp [hfoot])]
  rw [haux]
  dsimp only
  rw [hread]
  rw [if_neg (by
    have : P.length % 4294967296 < P.length := by omega
    omega)]

theorem verify_of_extract_none {store : List Certificate} {f : List Nat}
    (h : (extractSignatureBlock f).2 = none) :
    verifyDxtFile store f = unsignedResult := by
  rcases extract_shape f with hs | ⟨a, p, hs⟩
  · rw [verifyDxtFile, hs]
  · rw [hs] at h
    simp at h

theorem verify_of_extract_some {store : List Certificate} {f a p : List Nat}
    (hx : extractSignatureBlock f = (a, some p)) :
    verifyDxtFile store f = verifyCore store a p := by
  rw [verifyDxtFile, hx]

theorem toOption_eq_some_iff {e : Except SignError (List Nat)} {x : List Nat} :
    e.toOption = some x ↔ e = .ok x := by
  cases e <;> simp [Except.toOption]

theorem signDxtFile_ok {file : List Nat} {cert : Certificate} {key : PrivateKey}
    {inters : List Certificate} (hpol : 2048 ≤ cert.publicKey.bits)
    (hmatch : key.keyId = cert.publicKey.keyId) :
    signDxtFile file cert key inters
      = .ok (attachSignature (unsignDxtFile file)
          (encodeEnvelope ⟨cert, inters, unsignDxtFile file, key.keyId⟩)) := by
  rw [signDxtFile, if_neg (by omega), if_neg (by simp [hmatch])]

/-! Claim theorems. -/

/-- C1: for every signed file (one whose verification verdict is not
`unsigned` under some trust store) and every single-byte mutation inside the
archive portion (the bytes before the signature block), verification of the
mutated file returns the `unsigned` verdict: the authenticated digest no
longer matches the archive bytes. -/
theorem claim_tamper_detection (store : List Certificate) (F : List Nat) (i b : Nat)
    (hb : b < 256)
    (hsigned : (verifyDxtFile store F).status ≠ SignatureStatus.unsigned)
    (hi : i < (unsignDxtFile F).length)
    (hchange : F[i]? ≠ some b) :
    (verifyDxtFile store (F.set i b)).status = SignatureStatus.unsigned := by
  rcases extract_shape F with hs | ⟨a, p, hs⟩
  · exact absurd (by rw [verify_of_extract_none (by rw [hs])]; rfl) hsigned
  · have hi' : i < a.length := by
      rw [unsignDxtFile, hs] at hi
      exact hi
    rw [verify_of_extract_some hs, verifyCore] at hsigned
    cases hdec : decodeEnvelope p with
    | none =>
      rw [hdec] at hsigned
      exact absurd rfl hsigned
    | some env =>
      rw [hdec] at hsigned
      dsimp only at hsigned
      by_cases hdig : env.digest = a
      · have hset := extract_set (b := b) hs hi'
        rw [verify_of_extract_some hset, verifyCore, hdec]
        dsimp only
        rw [if_pos (show env.digest ≠ a.set i b from ?_)]
        · rfl
        · rw [hdig]
          intro he
          have h1 : a[i]? = some b := by
            rw [he]
            exact List.getElem?_set_eq_of_lt b hi'
          obtain ⟨h, haux, ha, hbound, hp, _, _⟩ := extract_some_inv hs
          have hih : i < h := by
            have hl := lastHeaderIdxAux_lt haux
            rw [ha, List.length_take] at hi'
            omega
          have h2 : a[i]? = F[i]? := by
            rw [ha]
            exact List.getElem?_take_of_lt hih
          exact hchange (h2 ▸ h1)
      · rw [if_pos (show env.digest ≠ a from hdig)] at hsigned
        exact absurd rfl hsigned

/-- C2: a signature block built directly (bypassing the signer) from any
signed-data envelope whose leaf certificate has an RSA key shorter than
2048 bits is rejected at verification time with the `unsigned` verdict: the
key-strength policy is enforced independently by the verifier. -/
theorem claim_weak_key_verify_rejection (store : List Certificate) (A : List Nat)
    (env : SignedDataEnvelope) (hweak : env.leaf.publicKey.bits < 2048) :
    (verifyDxtFile store (attachSignature A (encodeEnvelope env))).status
      = SignatureStatus.unsigned := by
  have hclean : ∀ j, 0 < j →
      headerAtB (createSignatureBlock (encodeEnvelope env)) j = false :=
    block_clean_hex byteify_hexlike
  have hle : meetsMinimumStrength env.leaf = false := by
    simp only [meetsMinimumStrength, decide_eq_false_iff_not]
    omega
  by_cases hlen : (encodeEnvelope env).length < 4294967296
  · rw [verify_of_extract_some (extract_attach hclean hlen), verifyCore, decode_encode]
    dsimp only
    by_cases hdig : env.digest ≠ A
    · rw [if_pos hdig]
      rfl
    · rw [if_neg hdig]
      by_cases hsig : env.sigKeyId ≠ env.leaf.publicKey.keyId
      · rw [if_pos hsig]
        rfl
      · rw [if_neg hsig]
        cases hpath : findChainPath store env.intermediates env.leaf with
        | some path =>
          dsimp only
          rw [if_neg (by simp [List.all_cons, hle])]
          rfl
        | none =>
          dsimp only
          rw [if_neg (by simp [hle])]
          rfl
  · rw [verify_of_extract_none (by rw [extract_attach_big hclean hlen])]
    rfl

/-- Shared witness material: a policy-compliant self-signed certificate, its
key, a tiny archive, and the signed file the modelled signer produces. -/
def witCert : Certificate :=
  ⟨⟨[65], [66], [67]⟩, ⟨[65], [66], [67]⟩, 1, 0, 100, ⟨2048, 7⟩, false, true, true, 7⟩

def witKey : PrivateKey := ⟨7⟩

def witArchive : List Nat := [1, 2, 3]

def witSignedFile : List Nat := ((signDxtFile witArchive witCert witKey []).toOption).getD []

/-- Witness for C1: the concrete signed file verifies as non-`unsigned`, and
flipping archive byte 0 to 9 makes verification return `unsigned`. -/
theorem claim_tamper_detection_witness :
    (9 : Nat) < 256 ∧
    (verifyDxtFile [] witSignedFile).status ≠ SignatureStatus.unsigned ∧
    (verifyDxtFile [] (witSignedFile.set 0 9)).status = SignatureStatus.unsigned :=
  ⟨by decide, by decide,
    claim_tamper_detection [] witSignedFile 0 9 (by decide) (by decide) (by decide)
      (by decide)⟩

/-- A weak (1024-bit) self-signed certificate and an envelope built from it
directly, bypassing the signer. -/
def witWeakCert : Certificate :=
  ⟨⟨[87], [88], [89]⟩, ⟨[87], [88], [89]⟩, 1, 0, 100, ⟨1024, 9⟩, false, true, true, 9⟩

def witWeakEnv : SignedDataEnvelope := ⟨witWeakCert, [], witArchive, 9⟩

/-- Witness for C2: the concrete weak-key envelope is attached directly and
verification rejects it as `unsigned`. -/
theorem claim_weak_key_verify_rejection_witness :
    witWeakEnv.leaf.publicKey.bits < 2048 ∧
    (verifyDxtFile [] (attachSignature witArchive (encodeEnvelope witWeakEnv))).status
      = SignatureStatus.unsigned :=
  ⟨by decide, claim_weak_key_verify_rejection [] witArchive witWeakEnv (by decide)⟩

/-- C4: signing with a certificate whose RSA key is shorter than 2048 bits
fails synchronously with a policy error whose message names the offending
key size and the 2048-bit minimum, and the target file's bytes are left
unmodified — the check runs before any output is produced. -/
theorem claim_weak_key_sign_rejection (file : List Nat) (cert : Certificate)
    (key : PrivateKey) (inters : List Certificate)
    (hweak : cert.publicKey.bits < 2048) :
    signDxtFile file cert key inters
      = .error (.policyError (weakKeyMessage cert.publicKey.bits)) ∧
    weakKeyMessage cert.publicKey.bits
      = "RSA key size " ++ toString cert.publicKey.bits ++
        " is too small for signing. " ++ "Minimum required is 2048 bits." ∧
    fileAfterSign file cert key inters = file := by
  have h1 : signDxtFile file cert key inters
      = .error (.policyError (weakKeyMessage cert.publicKey.bits)) := by
    rw [signDxtFile, if_pos hweak]
  exact ⟨h1, rfl, by rw [fileAfterSign, h1]⟩

/-- Witness for C4: signing with the concrete 1024-bit certificate fails
with the policy error and leaves the file bytes unchanged. -/
theorem claim_weak_key_sign_rejection_witness :
    witWeakCert.publicKey.bits < 2048 ∧
    signDxtFile witArchive witWeakCert ⟨9⟩ []
      = .error (.policyError (weakKeyMessage 1024)) ∧
    fileAfterSign witArchive witWeakCert ⟨9⟩ [] = witArchive :=
  ⟨by decide,
    (claim_weak_key_sign_rejection witArchive witWeakCert ⟨9⟩ [] (by decide)).1,
    (claim_weak_key_sign_rejection witArchive witWeakCert ⟨9⟩ [] (by decide)).2.2⟩

/-- C6: on any file whose signature block is absent, or whose trailing block
carries a payload the envelope parser rejects, verification returns the
plain `unsigned` result — a normal return with no other field populated,
never an exception (the verifier is a total function). -/
theorem claim_unsigned_never_throws (store : List Certificate) (f : List Nat)
    (h : ∀ p, (extractSignatureBlock f).2 = some p → decodeEnvelope p = none) :
    verifyDxtFile store f = unsignedResult ∧
    unsignedResult
      = ⟨SignatureStatus.unsigned, none, none, none, none, none⟩ := by
  refine ⟨?_, rfl⟩
  rcases extract_shape f with hs | ⟨a, p, hs⟩
  · exact verify_of_extract_none (by rw [hs])
  · rw [verify_of_extract_some hs, verifyCore, h p (by rw [hs])]

/-- Witness for C6: a file framing the unparsable payload `[0]` verifies to
the bare `unsigned` result. -/
theorem claim_unsigned_never_throws_witness :
    verifyDxtFile [] (attachSignature [] [0]) = unsignedResult ∧
    unsignedResult
      = ⟨SignatureStatus.unsigned, none, none, none, none, none⟩ :=
  claim_unsigned_never_throws [] (attachSignature [] [0]) (by
    intro p hp
    have h0 : some ([0] : List Nat) = some p := by
      rw [← hp,
        show extractSignatureBlock (attachSignature [] [0]) = ([], some [0]) from by decide]
    cases h0
    decide)

theorem attach_last_footer (A s : List Nat) :
    (attachSignature A s).drop ((attachSignature A s).length - 11)
      = SIGNATURE_FOOTER := by
  have he : attachSignature A s
      = (A ++ (SIGNATURE_HEADER ++ (toLE32 s.length ++ s))) ++ SIGNATURE_FOOTER := by
    simp [attachSignature, createSignatureBlock, List.append_assoc]
  rw [he]
  have he2 : ((A ++ (SIGNATURE_HEADER ++ (toLE32 s.length ++ s)))
        ++ SIGNATURE_FOOTER).length - 11
      = (A ++ (SIGNATURE_HEADER ++ (toLE32 s.length ++ s))).length := by
    simp [SIGNATURE_FOOTER]
    omega
  rw [he2, List.drop_left]

/-- C7: attaching a signature produces exactly archive bytes, then the
10-byte ASCII header `DXT_SIG_V1`, then the payload length as 4 bytes
little-endian, then the payload, then the 11-byte ASCII footer
`DXT_SIG_END`; in particular the signed file always ends in the footer
marker. -/
theorem claim_attach_layout (A s : List Nat) :
    attachSignature A s
      = A ++ SIGNATURE_HEADER ++ toLE32 s.length ++ s ++ SIGNATURE_FOOTER ∧
    SIGNATURE_HEADER = "DXT_SIG_V1".toList.map Char.toNat ∧
    SIGNATURE_HEADER.length = 10 ∧
    SIGNATURE_FOOTER = "DXT_SIG_END".toList.map Char.toNat ∧
    SIGNATURE_FOOTER.length = 11 ∧
    (toLE32 s.length).length = 4 ∧
    (attachSignature A s).drop ((attachSignature A s).length - 11)
      = SIGNATURE_FOOTER :=
  ⟨by simp [attachSignature, createSignatureBlock, List.append_assoc],
    by decide, by decide, by decide, by decide, by simp [toLE32],
    attach_last_footer A s⟩

theorem signDxtFile_ok_inv {file F : List Nat} {cert : Certificate} {key : PrivateKey}
    {inters : List Certificate}
    (h : signDxtFile file cert key inters = .ok F) :
    2048 ≤ cert.publicKey.bits ∧ key.keyId = cert.publicKey.keyId ∧
    F = attachSignature (unsignDxtFile file)
        (encodeEnvelope ⟨cert, inters, unsignDxtFile file, key.keyId⟩) := by
  rw [signDxtFile] at h
  split at h
  · exact absurd h (by simp)
  · split at h
    · exact absurd h (by simp)
    · next h1 h2 =>
      refine ⟨by omega, not_not.1 h2, ?_⟩
      simpa using h.symm

theorem verifyCore_signed_inv {store : List Certificate} {a p : List Nat}
    (h : (verifyCore store a p).status = SignatureStatus.signed) :
    ∃ env path, decodeEnvelope p = some env ∧
      findChainPath store env.intermediates env.leaf = some path ∧
      (env.leaf :: path).all meetsMinimumStrength = true := by
  rw [verifyCore] at h
  split at h
  · exact absurd h (by simp [unsignedResult])
  · next env hdec =>
    split at h
    · exact absurd h (by simp [unsignedResult])
    · split at h
      · exact absurd h (by simp [unsignedResult])
      · split at h
        · next path hpath =>
          split at h
          · next hall => exact ⟨env, path, hdec, hpath, hall⟩
          · exact absurd h (by simp [unsignedResult])
        · next hpath =>
          split at h
          · split at h
            · exact absurd h (by simp [selfSignedResult])
            · exact absurd h (by simp [unsignedResult])
          · exact absurd h (by simp [unsignedResult])

theorem verifyCore_selfSigned_inv {store : List Certificate} {a p : List Nat}
    (h : (verifyCore store a p).status = SignatureStatus.selfSigned) :
    ∃ env, decodeEnvelope p = some env ∧
      env.leaf.issuer = env.leaf.subject ∧
      env.leaf.signedByKeyId = env.leaf.publicKey.keyId ∧
      findChainPath store env.intermediates env.leaf = none := by
  rw [verifyCore] at h
  split at h
  · exact absurd h (by simp [unsignedResult])
  · next env hdec =>
    split at h
    · exact absurd h (by simp [unsignedResult])
    · split at h
      · exact absurd h (by simp [unsignedResult])
      · split at h
        · split at h
          · exact absurd h (by simp [signedResult])
          · exact absurd h (by simp [unsignedResult])
        · next hpath =>
          split at h
          · split at h
            · next hself => exact ⟨env, hdec, hself.1, hself.2, hpath⟩
            · exact absurd h (by simp [unsignedResult])
          · exact absurd h (by simp [unsignedResult])

/-- A policy-compliant certificate issued by a CA (issuer differs from
subject), with its matching key identifier. -/
def cexCACert : Certificate :=
  ⟨⟨[65], [66], [67]⟩, ⟨[90], [66], [67]⟩, 2, 0, 100, ⟨2048, 7⟩, false, true, true, 11⟩

def cexC3File : List Nat := ((signDxtFile witArchive cexCACert witKey []).toOption).getD []

/-- Counterexample to C3 as stated: a matching, policy-compliant pair whose
certificate does not chain to any trusted root and is not strictly
self-signed — signing succeeds but verification (here with an empty trust
store) returns `unsigned`, not a non-`unsigned` verdict. -/
theorem claim_sign_verify_roundtrip_counterexample :
    2048 ≤ cexCACert.publicKey.bits ∧
    witKey.keyId = cexCACert.publicKey.keyId ∧
    (signDxtFile witArchive cexCACert witKey []).toOption = some cexC3File ∧
    (verifyDxtFile [] cexC3File).status = SignatureStatus.unsigned := by
  decide

/-- C3 (amended): verifying the file produced by signing a block-free
archive with a matching, policy-compliant pair yields a verdict other than
`unsigned` provided the certificate either chains to a trust-store root
through certificates that all meet the key-strength policy or is strictly
self-signed, and the encoded envelope fits the 4-byte length field; the
archive bytes recovered from the signed file are exactly the original
archive in any case. -/
theorem claim_sign_verify_roundtrip (store : List Certificate) (A F : List Nat)
    (cert : Certificate) (key : PrivateKey) (inters : List Certificate)
    (hpol : 2048 ≤ cert.publicKey.bits)
    (hmatch : key.keyId = cert.publicKey.keyId)
    (hnoblock : (extractSignatureBlock A).2 = none)
    (hsig : (signDxtFile A cert key inters).toOption = some F)
    (hsize : (encodeEnvelope ⟨cert, inters, A, key.keyId⟩).length < 4294967296)
    (htrust :
      (∃ path, findChainPath store inters cert = some path ∧
        (cert :: path).all meetsMinimumStrength = true) ∨
      (findChainPath store inters cert = none ∧ cert.issuer = cert.subject ∧
        cert.signedByKeyId = cert.publicKey.keyId)) :
    (verifyDxtFile store F).status ≠ SignatureStatus.unsigned ∧
    unsignDxtFile F = A := by
  have hA : unsignDxtFile A = A := extract_none_fst hnoblock
  rw [toOption_eq_some_iff] at hsig
  have hok := @signDxtFile_ok A cert key inters hpol hmatch
  rw [hA] at hok
  have hF : F = attachSignature A (encodeEnvelope ⟨cert, inters, A, key.keyId⟩) := by
    have := hsig.symm.trans hok
    simpa using this
  have hclean : ∀ j, 0 < j →
      headerAtB (createSignatureBlock (encodeEnvelope ⟨cert, inters, A, key.keyId⟩)) j
        = false :=
    block_clean_hex byteify_hexlike
  have hx : extractSignatureBlock F
      = (A, some (encodeEnvelope ⟨cert, inters, A, key.keyId⟩)) := by
    rw [hF]
    exact extract_attach hclean hsize
  constructor
  · rw [verify_of_extract_some hx, verifyCore, decode_encode]
    dsimp only
    rw [if_neg (by simp)]
    rw [if_neg (by simp [hmatch])]
    rcases htrust with ⟨path, hpath, hall⟩ | ⟨hnone, hself1, hself2⟩
    · rw [hpath]
      dsimp only
      rw [if_pos hall]
      simp [signedResult]
    · rw [hnone]
      dsimp only
      rw [if_pos (show meetsMinimumStrength cert = true by
        simp only [meetsMinimumStrength, decide_eq_true_eq]
        omega)]
      rw [if_pos ⟨hself1, hself2⟩]
      simp [selfSignedResult]
  · rw [hF, unsignDxtFile, extract_attach hclean hsize]

/-- Witness for C3 (amended): the concrete self-signed pair round-trips —
verification of the signed file is not `unsigned` and stripping it returns
the original archive bytes. -/
theorem claim_sign_verify_roundtrip_witness :
    (verifyDxtFile [] witSignedFile).status ≠ SignatureStatus.unsigned ∧
    unsignDxtFile witSignedFile = witArchive :=
  claim_sign_verify_roundtrip [] witArchive witSignedFile witCert witKey []
    (by decide) (by decide) (by decide) (by decide) (by decide)
    (Or.inr ⟨by decide, by decide, by decide⟩)

theorem chain_nil_inv {store : List Certificate} {c : Certificate} {path : List Certificate}
    (h : findChainPath store [] c = some path) :
    ∃ r ∈ store, issuedByB c r = true := by
  rw [findChainPath, List.length_nil, findPathAux] at h
  cases hfind : store.find? fun r => issuedByB c r with
  | none => rw [hfind] at h; simp at h
  | some r => exact ⟨r, List.mem_of_find?_eq_some hfind, List.find?_some hfind⟩

theorem chain_one_some_inv {store : List Certificate} {i c : Certificate}
    {path : List Certificate}
    (h : findChainPath store [i] c = some path) :
    (∃ r ∈ store, issuedByB c r = true) ∨
    (issuedByB c i = true ∧ ∃ r ∈ store, issuedByB i r = true) := by
  rw [findChainPath, List.length_singleton, findPathAux] at h
  cases hfind : store.find? fun r => issuedByB c r with
  | some r => exact Or.inl ⟨r, List.mem_of_find?_eq_some hfind, List.find?_some hfind⟩
  | none =>
    rw [hfind] at h
    cases hfind2 : List.find?
        (fun j => issuedByB c j && (findPathAux store [i] 0 j).isSome) [i] with
    | none => rw [hfind2] at h; simp at h
    | some j =>
      rw [hfind2] at h
      have hj : j = i := by
        have := List.mem_of_find?_eq_some hfind2
        simpa using this
      have hp := List.find?_some hfind2
      rw [hj, Bool.and_eq_true] at hp
      have h2 := hp.2
      rw [findPathAux] at h2
      cases hfind3 : store.find? fun r => issuedByB i r with
      | none => rw [hfind3] at h2; simp at h2
      | some r =>
        exact Or.inr ⟨hp.1, r, List.mem_of_find?_eq_some hfind3, List.find?_some hfind3⟩

theorem chain_one_none {store : List Certificate} {i c : Certificate}
    (h1 : ∀ r ∈ store, issuedByB c r = false)
    (h2 : ∀ r ∈ store, issuedByB i r = false) :
    findChainPath store [i] c = none := by
  have hf1 : store.find? (fun r => issuedByB c r) = none :=
    List.find?_eq_none.2 fun x hx => by simp [h1 x hx]
  have hf2 : store.find? (fun r => issuedByB i r) = none :=
    List.find?_eq_none.2 fun x hx => by simp [h2 x hx]
  rw [findChainPath, List.length_singleton, findPathAux, hf1]
  have hinner : findPathAux store [i] 0 i = none := by
    rw [findPathAux, hf2]
    rfl
  have hpred : (fun j => issuedByB c j && (findPathAux store [i] 0 j).isSome) i = false := by
    simp [hinner]
  have hfl : List.find? (fun j => issuedByB c j && (findPathAux store [i] 0 j).isSome) [i]
      = none := by
    simp [List.find?, hinner]
  rw [hfl]
  rfl

theorem sign_extract {A F : List Nat} {cert : Certificate} {key : PrivateKey}
    {inters : List Certificate}
    (hsig : signDxtFile A cert key inters = .ok F) :
    extractSignatureBlock F = (F, none) ∨
    extractSignatureBlock F
      = (unsignDxtFile A,
          some (encodeEnvelope ⟨cert, inters, unsignDxtFile A, key.keyId⟩)) := by
  obtain ⟨_, _, hF⟩ := signDxtFile_ok_inv hsig
  have hclean : ∀ j, 0 < j →
      headerAtB (createSignatureBlock
        (encodeEnvelope ⟨cert, inters, unsignDxtFile A, key.keyId⟩)) j = false :=
    block_clean_hex byteify_hexlike
  by_cases hsz : (encodeEnvelope ⟨cert, inters, unsignDxtFile A, key.keyId⟩).length
      < 4294967296
  · exact Or.inr (by rw [hF]; exact extract_attach hclean hsz)
  · exact Or.inl (by rw [hF]; exact extract_attach_big hclean hsz)

def selfCexStore : List Certificate := [witCert]

/-- Counterexample to C5 as stated: the self-issued certificate `witCert`
was used to sign, and with a trust store that contains that very
certificate, verification returns the `signed` verdict — contradicting the
claim that a self-issued signer never yields `signed`. -/
theorem claim_trust_classification_counterexample :
    witCert.issuer = witCert.subject ∧
    (signDxtFile witArchive witCert witKey []).toOption = some witSignedFile ∧
    (verifyDxtFile selfCexStore witSignedFile).status = SignatureStatus.signed := by
  decide

/-- C5 (amended): classification of signer-produced files.
Part 1: a self-issued certificate yields `self-signed` or `unsigned`, never
`signed`, provided no trust-store root directly issues it (for example, the
certificate itself is not installed as a root).
Part 2: a leaf signed over one intermediate whose issuer differs from its
subject is never classified `self-signed`.
Part 3: such a file is classified `signed` only when the trust store holds a
root that issues the leaf directly or issues the CA intermediate.
Part 4: otherwise — no root issues the leaf or the CA — a policy-compliant
non-self-issued leaf degrades to `unsigned`. -/
theorem claim_trust_classification :
    (∀ (store : List Certificate) (A F : List Nat) (cert : Certificate) (key : PrivateKey),
      signDxtFile A cert key [] = .ok F →
      cert.issuer = cert.subject →
      store.all (fun r => !(issuedByB cert r)) = true →
      (verifyDxtFile store F).status ≠ SignatureStatus.signed) ∧
    (∀ (store : List Certificate) (A F : List Nat) (leaf ca : Certificate)
        (key : PrivateKey),
      signDxtFile A leaf key [ca] = .ok F →
      leaf.issuer ≠ leaf.subject →
      (verifyDxtFile store F).status ≠ SignatureStatus.selfSigned) ∧
    (∀ (store : List Certificate) (A F : List Nat) (leaf ca : Certificate)
        (key : PrivateKey),
      signDxtFile A leaf key [ca] = .ok F →
      (verifyDxtFile store F).status = SignatureStatus.signed →
      (∃ r ∈ store, issuedByB leaf r = true) ∨
      (issuedByB leaf ca = true ∧ ∃ r ∈ store, issuedByB ca r = true)) ∧
    (∀ (store : List Certificate) (A F : List Nat) (leaf ca : Certificate)
        (key : PrivateKey),
      signDxtFile A leaf key [ca] = .ok F →
      leaf.issuer ≠ leaf.subject →
      (∀ r ∈ store, issuedByB leaf r = false) →
      (∀ r ∈ store, issuedByB ca r = false) →
      (verifyDxtFile store F).status = SignatureStatus.unsigned) := by
  refine ⟨?_, ?_, ?_, ?_⟩
  · intro store A F cert key hsig hselfIss hall hst
    rcases sign_extract hsig with hx | hx
    · rw [verify_of_extract_none (by rw [hx])] at hst
      simp [unsignedResult] at hst
    · rw [verify_of_extract_some hx] at hst
      obtain ⟨env, path, hdec, hpath, _⟩ := verifyCore_signed_inv hst
      rw [decode_encode] at hdec
      cases hdec
      obtain ⟨r, hmem, hiss⟩ := chain_nil_inv hpath
      have := (List.all_eq_true.1 hall) r hmem
      simp [hiss] at this
  · intro store A F leaf ca key hsig hne hst
    rcases sign_extract hsig with hx | hx
    · rw [verify_of_extract_none (by rw [hx])] at hst
      simp [unsignedResult] at hst
    · rw [verify_of_extract_some hx] at hst
      obtain ⟨env, hdec, hself, _, _⟩ := verifyCore_selfSigned_inv hst
      rw [decode_encode] at hdec
      cases hdec
      exact hne hself
  · intro store A F leaf ca key hsig hst
    rcases sign_extract hsig with hx | hx
    · rw [verify_of_extract_none (by rw [hx])] at hst
      simp [unsignedResult] at hst
    · rw [verify_of_extract_some hx] at hst
      obtain ⟨env, path, hdec, hpath, _⟩ := verifyCore_signed_inv hst
      rw [decode_encode] at hdec
      cases hdec
      exact chain_one_some_inv hpath
  · intro store A F leaf ca key hsig hne hstore1 hstore2
    obtain ⟨hpol, hmatch, hF⟩ := signDxtFile_ok_inv hsig
    rcases sign_extract hsig with hx | hx
    · rw [verify_of_extract_none (by rw [hx])]
      rfl
    · rw [verify_of_extract_some hx, verifyCore, decode_encode]
      dsimp only
      rw [if_neg (by simp)]
      rw [if_neg (by simp [hmatch])]
      rw [chain_one_none hstore1 hstore2]
      dsimp only
      rw [if_pos (show meetsMinimumStrength leaf = true by
        simp only [meetsMinimumStrength, decide_eq_true_eq]
        omega)]
      rw [if_neg (by
        intro hand
        exact hne hand.1)]
      rfl

/-- The CA certificate that issued `cexCACert` (subject equal to that
certificate's issuer name, holding key 11). -/
def witCACert : Certificate :=
  ⟨⟨[90], [66], [67]⟩, ⟨[90], [66], [67]⟩, 3, 0, 100, ⟨2048, 11⟩, true, true, false, 11⟩

def witChainFile : List Nat :=
  ((signDxtFile witArchive cexCACert witKey [witCACert]).toOption).getD []

set_option maxRecDepth 8000

/-- Witness for C5 (amended): concrete instantiations of all four parts —
the self-signed file is never `signed` under an empty store; the CA-chained
file is never `self-signed`; when it is `signed` (store holding the CA) the
store indeed issues leaf or CA; and with an empty store it is `unsigned`. -/
theorem claim_trust_classification_witness :
    (verifyDxtFile [] witSignedFile).status ≠ SignatureStatus.signed ∧
    (verifyDxtFile [witCACert] witChainFile).status ≠ SignatureStatus.selfSigned ∧
    ((∃ r ∈ [witCACert], issuedByB cexCACert r = true) ∨
      (issuedByB cexCACert witCACert = true ∧
        ∃ r ∈ [witCACert], issuedByB witCACert r = true)) ∧
    (verifyDxtFile [] witChainFile).status = SignatureStatus.unsigned :=
  ⟨claim_trust_classification.1 [] witArchive witSignedFile witCert witKey
      (toOption_eq_some_iff.1 (by decide)) (by decide) (by decide),
    claim_trust_classification.2.1 [witCACert] witArchive witChainFile cexCACert witCACert
      witKey (toOption_eq_some_iff.1 (by decide)) (by decide),
    claim_trust_classification.2.2.1 [witCACert] witArchive witChainFile cexCACert witCACert
      witKey (toOption_eq_some_iff.1 (by decide)) (by decide),
    claim_trust_classification.2.2.2 [] witArchive witChainFile cexCACert witCACert witKey
      (toOption_eq_some_iff.1 (by decide)) (by decide) (by simp) (by simp)⟩

/-- A file with two stacked signature blocks: stripping it twice does not
equal stripping it once. -/
def stackedFile : List Nat := attachSignature (attachSignature [] []) []

/-- Counterexample to C8 as stated: `unsign` is not idempotent on a file
carrying two stacked signature blocks — each call strips one block. -/
theorem claim_unsign_idempotent_counterexample :
    unsignDxtFile (unsignDxtFile stackedFile) ≠ unsignDxtFile stackedFile := by
  decide

/-- C8 (amended): `unsign` is the identity on block-free bytes, and on a
file carrying exactly one well-formed signature block (payload fitting the
length field and not itself containing the header marker) it recovers the
archive; hence `unsign` is idempotent on files carrying at most one block.
Files with stacked blocks, as in the counterexample, lose one block per
call. -/
theorem claim_unsign_idempotent (A s : List Nat)
    (hnoblock : (extractSignatureBlock A).2 = none)
    (hlen : s.length < 4294967296)
    (hclean : ∀ j, 0 < j → headerAtB (createSignatureBlock s) j = false) :
    unsignDxtFile A = A ∧
    unsignDxtFile (attachSignature A s) = A ∧
    unsignDxtFile (unsignDxtFile (attachSignature A s))
      = unsignDxtFile (attachSignature A s) := by
  have h1 : unsignDxtFile A = A := extract_none_fst hnoblock
  have h2 : unsignDxtFile (attachSignature A s) = A := by
    rw [unsignDxtFile, extract_attach hclean hlen]
  exact ⟨h1, h2, by rw [h2, h1]⟩

/-- Witness for C8 (amended): stripping the concretely signed file returns
the archive, and stripping again changes nothing. -/
theorem claim_unsign_idempotent_witness :
    unsignDxtFile witArchive = witArchive ∧
    unsignDxtFile (attachSignature witArchive []) = witArchive ∧
    unsignDxtFile (unsignDxtFile (attachSignature witArchive []))
      = unsignDxtFile (attachSignature witArchive []) :=
  claim_unsign_idempotent witArchive [] (by decide) (by decide)
    (block_clean_hex (by simp))

/-- Modelled after `unpackExtension` in `src/src/cli/unpack.ts`: unpacking
reads the file bytes, strips any trailing signature block with
`extractSignatureBlock` (using only `originalContent`), and hands the result
to the unzip collaborator (`unzipSync` from fflate), abstracted here as a
function from archive bytes to named file contents. -/
def unpackExtension (unzip : List Nat → List (String × List Nat))
    (file : List Nat) : List (String × List Nat) :=
  unzip (extractSignatureBlock file).1

/-- C9: unpacking is signature-transparent — for a block-free archive, the
signed file unpacks to exactly the same set of files with the same contents
as the unsigned archive, for every unzip collaborator. -/
theorem claim_unpack_signature_transparent
    (unzip : List Nat → List (String × List Nat)) (A F : List Nat)
    (cert : Certificate) (key : PrivateKey) (inters : List Certificate)
    (hnoblock : (extractSignatureBlock A).2 = none)
    (hsig : signDxtFile A cert key inters = .ok F)
    (hsize : (encodeEnvelope ⟨cert, inters, A, key.keyId⟩).length < 4294967296) :
    unpackExtension unzip F = unpackExtension unzip A := by
  have hA : unsignDxtFile A = A := extract_none_fst hnoblock
  obtain ⟨_, _, hF⟩ := signDxtFile_ok_inv hsig
  rw [hA] at hF
  have hclean : ∀ j, 0 < j →
      headerAtB (createSignatureBlock (encodeEnvelope ⟨cert, inters, A, key.keyId⟩)) j
        = false :=
    block_clean_hex byteify_hexlike
  rw [unpackExtension, unpackExtension, hF, extract_attach hclean hsize]
  rw [show (extractSignatureBlock A).1 = A from hA]

/-- Witness for C9: with a concrete unzip stub, unpacking the concretely
signed file equals unpacking the bare archive. -/
theorem claim_unpack_signature_transparent_witness :
    unpackExtension (fun a => [("archive", a)]) witSignedFile
      = unpackExtension (fun a => [("archive", a)]) witArchive :=
  claim_unpack_signature_transparent (fun a => [("archive", a)]) witArchive witSignedFile
    witCert witKey [] (by decide) (toOption_eq_some_iff.1 (by decide)) (by decide)

/-- Embedding of the repository's `DxtSignatureInfoSchema`
(`src/unnamed/part_006`, lines 298–305): a signature-info record whose
`status` is constrained to the three-string enum, all other fields optional
strings. -/
structure SignatureInfoRecord where
  status : String
  publisher : Option String
  issuer : Option String
  valid_from : Option String
  valid_to : Option String
  fingerprint : Option String
deriving DecidableEq

/-- The Zod schema's validation predicate: only the `status` enum constrains
a record; the optional string fields always validate. -/
def DxtSignatureInfoSchema_check (r : SignatureInfoRecord) : Bool :=
  r.status == "signed" || r.status == "unsigned" || r.status == "self-signed"

/-- View a verification result as a schema-level record. -/
def toRecord (i : DxtSignatureInfo) : SignatureInfoRecord :=
  ⟨i.status.display, i.publisher, i.issuer, i.valid_from, i.valid_to, i.fingerprint⟩

/-- C10: every verification result conforms to the schema — its status
string is always one of exactly `signed`, `unsigned`, `self-signed` (the
schema accepts a record iff its status is one of those three), and the
`unsigned` result legitimately carries none of the optional fields. -/
theorem claim_signature_info_schema :
    (∀ (store : List Certificate) (f : List Nat),
      DxtSignatureInfoSchema_check (toRecord (verifyDxtFile store f)) = true) ∧
    (∀ r : SignatureInfoRecord,
      DxtSignatureInfoSchema_check r = true ↔
        (r.status = "signed" ∨ r.status = "unsigned" ∨ r.status = "self-signed")) ∧
    toRecord unsignedResult = ⟨"unsigned", none, none, none, none, none⟩ := by
  refine ⟨?_, ?_, rfl⟩
  · intro store f
    cases hs : (verifyDxtFile store f).status <;>
      simp [DxtSignatureInfoSchema_check, toRecord, SignatureStatus.display, hs]
  · intro r
    simp [DxtSignatureInfoSchema_check, Bool.or_eq_true, beq_iff_eq, or_assoc]
